import Mathlib

/-!
# EdgeX_bot — formal model of the order-ladder engine

A shallow embedding of the reconciliation/ladder logic of the EdgeX grid
trading bot:

* `src/bot/grid_engine.py` — ladder state, fill detection, anchor
  replenishment, seeding, drift follow (`GridEngine`);
* `src/bot/adapters/edgex_sdk.py` — price/size quantization and the
  order-rejection error path (`EdgeXSDKAdapter.place_order`);
* `src/edgexbot_github/bot/mm_engine.py` — the retrying place executor
  (`MarketMakerEngine._place`) and the fee-aware take-profit computation
  (`_calc_tp_with_fees`).

Python `float` prices are modelled as exact rationals (`ℚ`); the source's
`1e-9` tolerance constants appear literally as `eps`.  Python `Decimal`
arithmetic (used for quantization) is modelled as exact rational
arithmetic.  Venue calls are modelled by explicit action lists, and the
success/failure of each call by Boolean parameters, so that control flow
on exceptions is captured by ordinary data flow.
-/

namespace EdgeXBot

/-- Order side, from `bot/models/types.py` (`OrderSide.BUY` / `OrderSide.SELL`). -/
inductive OrderSide where
  | BUY
  | SELL
deriving DecidableEq, Repr, BEq

/-- The `1e-9` tolerance used throughout `grid_engine.py` for float comparisons. -/
def eps : ℚ := 1 / 1000000000

/-- A side of the ladder: `placed_buy_px_to_id` / `placed_sell_px_to_id`
in `GridEngine` — a finite map from price to venue order id, modelled as
an association list with unique keys. -/
abbrev SideMap := List (ℚ × String)

/-- The price keys of a side map. -/
def keys (m : SideMap) : List ℚ := m.map Prod.fst

/-- Python `min(keys)` over a price list, `none` when empty. -/
def listMin : List ℚ → Option ℚ
  | [] => none
  | x :: xs => some (xs.foldl min x)

/-- Python `max(keys)` over a price list, `none` when empty. -/
def listMax : List ℚ → Option ℚ
  | [] => none
  | x :: xs => some (xs.foldl max x)

/-- Dictionary lookup `m[px]`. -/
def lookupKey (m : SideMap) (px : ℚ) : Option String :=
  (m.find? (fun e => e.1 == px)).map Prod.snd

/-- Dictionary deletion `del m[px]` / `m.pop(px)` (key removal). -/
def eraseKey (m : SideMap) (px : ℚ) : SideMap :=
  m.filter (fun e => e.1 != px)

/-- Dictionary insertion `m[px] = oid` (replacing any previous binding). -/
def insertKey (m : SideMap) (px : ℚ) (oid : String) : SideMap :=
  (px, oid) :: eraseKey m px

/-!
## Fill detection — `GridEngine._replenish_if_filled`, first half

The engine lists the venue's open orders, extracts the set of their ids
(`active_ids`), and classifies every ladder entry whose id is absent as
filled, deleting it from its side's map (grid_engine.py lines 485-523).
-/

/-- One row of the open-order snapshot, with the id fields probed by
`_replenish_if_filled` (`orderId`, `id`, `order_id`, `clientOrderId`,
`client_order_id`). -/
structure SnapshotRow where
  orderId : Option String
  id : Option String
  order_id : Option String
  clientOrderId : Option String
  client_order_id : Option String

/-- Python's `a or b` on optional strings: an absent or empty string falls
through to the right operand. -/
def pyOrStr (a b : Option String) : Option String :=
  match a with
  | some s => if s = "" then b else some s
  | none => b

/-- Id extraction for one snapshot row:
`o.get("orderId") or o.get("id") or o.get("order_id") or
 o.get("clientOrderId") or o.get("client_order_id")`,
kept only `if oid:` (non-empty). -/
def rowId (o : SnapshotRow) : Option String :=
  match pyOrStr o.orderId (pyOrStr o.id (pyOrStr o.order_id
      (pyOrStr o.clientOrderId o.client_order_id))) with
  | some s => if s = "" then none else some s
  | none => none

/-- The `active_ids` set of order ids present in the snapshot. -/
def activeIds (rows : List SnapshotRow) : List String :=
  rows.filterMap rowId

/-- The per-side reconcile pass: first component is the list of filled
prices (entries whose id is not in `ids`), second component is the side
map after `del` of those prices.  This is the loop
`for px, oid in list(side.items()): if oid not in active_ids: ...`
followed by `for px in filled: del side[px]`. -/
def reconcileSide (side : SideMap) (ids : List String) : List ℚ × SideMap :=
  ((side.filter (fun e => decide (e.2 ∉ ids))).map Prod.fst,
   side.filter (fun e => decide (e.2 ∈ ids)))

/-!
## Quantization — `EdgeXSDKAdapter.place_order`, rounding section

Price: `Decimal(str(price)) / tick` rounded with `ROUND_FLOOR` for BUY and
`ROUND_CEILING` for SELL, then multiplied back by `tick`
(edgex_sdk.py lines 202-226).  Decimal arithmetic is modelled exactly.
-/

/-- Side-aware price rounding to the tick: BUY floors, SELL ceils. -/
def roundPx (side : OrderSide) (tick p : ℚ) : ℚ :=
  match side with
  | .BUY => (⌊p / tick⌋ : ℤ) * tick
  | .SELL => (⌈p / tick⌉ : ℤ) * tick

/-- Full price-quantization path: the `EDGEX_PRICE_TICK` env override takes
precedence over the venue-metadata tick; either is applied only when
positive; otherwise the price passes through. -/
def quantizePx (envTick ruleTick : Option ℚ) (side : OrderSide) (p : ℚ) : ℚ :=
  match envTick with
  | some t => if 0 < t then roundPx side t p else p
  | none =>
    match ruleTick with
    | some t => if 0 < t then roundPx side t p else p
    | none => p

/-- Size rounding to a step: floor to the step, raised to one step when the
result is non-positive (edgex_sdk.py lines 230-249). -/
def roundSz (step q : ℚ) : ℚ :=
  let v : ℚ := (⌊q / step⌋ : ℤ) * step
  if v ≤ 0 then step else v

/-- The step-rounding stage of size quantization: `EDGEX_SIZE_STEP` env
override, else the venue-metadata step, each applied only when positive
(edgex_sdk.py lines 228-249). -/
def sizeStepPart (envStep ruleStep : Option ℚ) (q : ℚ) : ℚ :=
  match envStep with
  | some s => if 0 < s then roundSz s q else q
  | none =>
    match ruleStep with
    | some s => if 0 < s then roundSz s q else q
    | none => q

/-- Full size-quantization path: step rounding, then the `min_size` raise
(`if min_size_val and qty < min_size_val: qty = min_size_val`,
lines 252-257; `min_size_val and ...` is Python truthiness). -/
def quantizeSz (envStep ruleStep minSize : Option ℚ) (q : ℚ) : ℚ :=
  let q1 := sizeStepPart envStep ruleStep q
  match minSize with
  | some m => if m ≠ 0 ∧ q1 < m then m else q1
  | none => q1

/-!
## Ladder mutations — `GridEngine`

Venue order mutations are recorded as explicit actions; the success of
each call is a Boolean parameter (the source catches and ignores the
exceptions, so a failed call changes no local state but does not stop the
surrounding logic).
-/

/-- A venue order mutation attempted by the engine. -/
inductive GAction where
  | cancel (oid : String)
  | place (side : OrderSide) (px : ℚ)
deriving DecidableEq, Repr

/-- Model of `GridEngine._has_min_gap` (lines 100-105): `px` is at least
`step - 1e-9` away from every price already in the side map. -/
def has_min_gap (step : ℚ) (m : SideMap) (px : ℚ) : Bool :=
  m.all (fun e => !(decide (|e.1 - px| < step - eps)))

/-- Result of `_place_order`: the two side maps and the venue calls made. -/
structure PlaceResult where
  buys : SideMap
  sells : SideMap
  calls : List GAction
deriving DecidableEq, Repr

/-- Model of `GridEngine._place_order` (lines 427-480).  In source order: skip
(no venue call) when an exchange-reported open order of the same side is
within `step - 1e-9` of the candidate (`active` models the rows of
`list_active_orders` with their side and price already extracted; a
failed listing yields `active = []`); skip, before any venue call, when
the opposite side map already holds the same price (self-cross guard);
otherwise call `adapter.place_order`, inserting the venue id into the own
side map on success (`ok = true`) and leaving the maps unchanged when the
call raises (`ok = false`, exception caught and logged). -/
def place_order (step : ℚ) (buys sells : SideMap) (active : List (OrderSide × ℚ))
    (side : OrderSide) (px : ℚ) (oid : String) (ok : Bool) : PlaceResult :=
  if active.any (fun r => r.1 == side && decide (|r.2 - px| < step - eps)) = true then
    ⟨buys, sells, []⟩
  else if side = OrderSide.BUY ∧ px ∈ keys sells then ⟨buys, sells, []⟩
  else if side = OrderSide.SELL ∧ px ∈ keys buys then ⟨buys, sells, []⟩
  else if ok = true then
    match side with
    | .BUY => ⟨insertKey buys px oid, sells, [GAction.place side px]⟩
    | .SELL => ⟨buys, insertKey sells px oid, [GAction.place side px]⟩
  else ⟨buys, sells, [GAction.place side px]⟩

/-- Number of cancel calls in an action list. -/
def cancelCount (l : List GAction) : Nat :=
  (l.filter (fun a => match a with | GAction.cancel _ => true | _ => false)).length

/-- Number of place calls in an action list. -/
def placeCount (l : List GAction) : Nat :=
  (l.filter (fun a => match a with | GAction.place _ _ => true | _ => false)).length

/-!
## Seeding — `GridEngine._ensure_grid`, initial placement (lines 375-425)
-/

/-- Buy-side seed targets `P - (X + i*N)`, `i < levels` (line 376). -/
def buyTargets (mid X N : ℚ) (levels : Nat) : List ℚ :=
  (List.range levels).map (fun (i : Nat) => mid - (X + (i : ℚ) * N))

/-- Sell-side seed targets `P + (X + i*N)`, `i < levels` (line 377). -/
def sellTargets (mid X N : ℚ) (levels : Nat) : List ℚ :=
  (List.range levels).map (fun (i : Nat) => mid + (X + (i : ℚ) * N))

/-- The initial BUY seeding loop (lines 387-403), guards in source order:
skip non-positive targets, skip targets at or above `P - 1e-9`, skip
already-placed prices, skip gap violations; stop at the per-loop cap when
it is enabled (non-zero); otherwise place and count the attempt. -/
def seedBuysGo (N mid : ℚ) (maxNew : Nat) (active : List (OrderSide × ℚ))
    (idg : Nat → String) (ok : Nat → Bool) :
    List ℚ → SideMap → SideMap → Nat → List GAction →
      SideMap × SideMap × List GAction
  | [], buys, sells, _, acts => (buys, sells, acts)
  | px :: rest, buys, sells, cnt, acts =>
    if px ≤ 0 then
      seedBuysGo N mid maxNew active idg ok rest buys sells cnt acts
    else if mid - eps ≤ px then
      seedBuysGo N mid maxNew active idg ok rest buys sells cnt acts
    else if px ∈ keys buys then
      seedBuysGo N mid maxNew active idg ok rest buys sells cnt acts
    else if has_min_gap N buys px = false then
      seedBuysGo N mid maxNew active idg ok rest buys sells cnt acts
    else if maxNew ≠ 0 ∧ maxNew ≤ cnt then (buys, sells, acts)
    else
      let r := place_order N buys sells active OrderSide.BUY px (idg cnt) (ok cnt)
      seedBuysGo N mid maxNew active idg ok rest r.buys r.sells (cnt + 1)
        (acts ++ r.calls)

/-- The initial SELL seeding loop (lines 406-420), guards in source
order: skip already-placed prices, skip gap violations, skip targets at
or below `P + 1e-9`; stop at the per-loop cap when enabled; otherwise
place.  Source defect here: line 420, the loop's trailing
`await asyncio.sleep(self.op_spacing_sec)`, is indented eight columns too
deep — a Python `IndentationError`, so the module cannot even be
imported and this loop never actually runs.  The model embeds the loop
as evidently intended, with the sleep (which touches neither the maps
nor the actions) inside the loop body. -/
def seedSellsGo (N mid : ℚ) (maxNew : Nat) (active : List (OrderSide × ℚ))
    (idg : Nat → String) (ok : Nat → Bool) :
    List ℚ → SideMap → SideMap → Nat → List GAction →
      SideMap × SideMap × List GAction
  | [], buys, sells, _, acts => (buys, sells, acts)
  | px :: rest, buys, sells, cnt, acts =>
    if px ∈ keys sells then
      seedSellsGo N mid maxNew active idg ok rest buys sells cnt acts
    else if has_min_gap N sells px = false then
      seedSellsGo N mid maxNew active idg ok rest buys sells cnt acts
    else if px ≤ mid + eps then
      seedSellsGo N mid maxNew active idg ok rest buys sells cnt acts
    else if maxNew ≠ 0 ∧ maxNew ≤ cnt then (buys, sells, acts)
    else
      let r := place_order N buys sells active OrderSide.SELL px (idg cnt) (ok cnt)
      seedSellsGo N mid maxNew active idg ok rest r.buys r.sells (cnt + 1)
        (acts ++ r.calls)

/-- The whole initial seeding pass: BUY targets first, then SELL targets
on the updated maps (lines 375-420). -/
def ensure_grid_init (N X mid : ℚ) (levels maxNew : Nat)
    (active : List (OrderSide × ℚ)) (idgB idgS : Nat → String)
    (okB okS : Nat → Bool) (buys sells : SideMap) :
    SideMap × SideMap × List GAction :=
  let rB := seedBuysGo N mid maxNew active idgB okB
    (buyTargets mid X N levels) buys sells 0 []
  let rS := seedSellsGo N mid maxNew active idgS okS
    (sellTargets mid X N levels) rB.1 rB.2.1 0 []
  (rS.1, rS.2.1, rB.2.2 ++ rS.2.2)

/-!
## Drift follow — `GridEngine._ensure_grid`, BUY follow (lines 227-263)
-/

/-- The BUY follow loop body: while the nearest buy lags
`desired - 1e-9` and fewer than `max_shift_per_loop` shifts were made,
pop and cancel the farthest (minimum) buy, then place one step inside the
current nearest unless that new price reaches the market (`break`), is
already placed (`continue`, counting a shift), or violates the gap
(`break`).  Fuel counts the remaining allowed shifts. -/
def followBuyGo (N mid desired : ℚ) (active : List (OrderSide × ℚ))
    (sells : SideMap) (idg : Nat → String) (ok : Nat → Bool) :
    Nat → ℚ → SideMap → List GAction → SideMap × List GAction
  | 0, _, buys, acts => (buys, acts)
  | rem + 1, nearest, buys, acts =>
    if ¬ (nearest < desired - eps) then (buys, acts)
    else if buys = [] then (buys, acts)
    else
      let far := (listMin (keys buys)).getD 0
      let fid := (lookupKey buys far).getD ""
      let buys1 := eraseKey buys far
      let acts1 := acts ++ [GAction.cancel fid]
      let newPx := nearest + N
      if mid - eps ≤ newPx then (buys1, acts1)
      else if newPx ∈ keys buys1 then
        followBuyGo N mid desired active sells idg ok rem newPx buys1 acts1
      else if has_min_gap N buys1 newPx = false then (buys1, acts1)
      else
        let r := place_order N buys1 sells active OrderSide.BUY newPx
          (idg rem) (ok rem)
        followBuyGo N mid desired active sells idg ok rem newPx r.buys
          (acts1 ++ r.calls)

/-- The BUY follow entry (lines 228-261): runs only when the buy map is
non-empty, with `nearest = max(buys)` and
`desired = P - (X + slack*N)`. -/
def followBuy (N X mid slack : ℚ) (maxShift : Nat)
    (active : List (OrderSide × ℚ)) (idg : Nat → String) (ok : Nat → Bool)
    (buys sells : SideMap) : SideMap × List GAction :=
  match listMax (keys buys) with
  | none => (buys, [])
  | some nb =>
    followBuyGo N mid (mid - (X + slack * N)) active sells idg ok maxShift
      nb buys []

/-!
## Anchor replenishment — `GridEngine._replenish_if_filled`, buy-fill
branch (lines 534-557)
-/

/-- The buy-fill replenishment: (1) pop and cancel the farthest (maximum)
sell when the sell map is non-empty — the pop happens before the venue
call, so the local map loses the entry even when the cancel raises;
(2) place a SELL at `min(sells) - N` (or `max(filled) + N - N` when the
sell map emptied) when that price is unplaced and positive; (3) place a
BUY at `min(buys) - N` (or `min(filled) - 2N` when the buy map is empty)
when that price is positive and unplaced.  Each placement goes through
`place_order` with its own guards; the Booleans are the independent venue
outcomes of the three calls. -/
def replenishBuyFill (N : ℚ) (buys sells : SideMap) (filledBuys : List ℚ)
    (active : List (OrderSide × ℚ)) (idSell idBuy : String)
    (okSell okBuy : Bool) : SideMap × SideMap × List GAction :=
  if filledBuys = [] then (buys, sells, [])
  else
    let step1 : SideMap × List GAction :=
      match listMax (keys sells) with
      | some m => (eraseKey sells m, [GAction.cancel ((lookupKey sells m).getD "")])
      | none => (sells, [])
    let sells1 := step1.1
    let base_near_sell : ℚ :=
      match listMin (keys sells1) with
      | some mn => mn
      | none => (listMax filledBuys).getD 0 + N
    let new_near_sell := base_near_sell - N
    let step2 : PlaceResult :=
      if new_near_sell ∉ keys sells1 ∧ 0 < new_near_sell then
        place_order N buys sells1 active OrderSide.SELL new_near_sell idSell okSell
      else ⟨buys, sells1, []⟩
    let base_outer_buy : ℚ :=
      match listMin (keys step2.buys) with
      | some mb => mb
      | none => (listMin filledBuys).getD 0 - N
    let new_outer_buy := base_outer_buy - N
    let step3 : PlaceResult :=
      if 0 < new_outer_buy ∧ new_outer_buy ∉ keys step2.buys then
        place_order N step2.buys step2.sells active OrderSide.BUY new_outer_buy
          idBuy okBuy
      else ⟨step2.buys, step2.sells, []⟩
    (step3.buys, step3.sells, step1.2 ++ step2.calls ++ step3.calls)

/-!
## Ladder invariant state machine

For the reachability invariants (claim C5) the ladder is abstracted to
its two price-key sets, and the engine's mutations to a step relation.
Every mutation the engine performs on `placed_buy_px_to_id` /
`placed_sell_px_to_id` is covered by a constructor:

* seeding a side happens only when that side's map is empty
  (`_ensure_grid` lines 182-222 and 375-425), inserts a subset of the
  arithmetic targets (any placement may individually fail), and each
  insert passes `_place_order`'s self-cross guard;
* every other insertion is a placement at exactly one step beyond a
  current boundary of its own side — follow (`nearest + N`, lines
  245-256, where `nearest` is at least every key), top-up
  (`min - N` / `max + N`, lines 308-330), replenishment (`min - N`,
  `max + N`, or unconstrained when the side is empty, lines 544-586) —
  so the inserted price is at distance at least `N` from every key of
  its side, and passes the self-cross guard;
* removals (fill deletions, cancel pops) may remove any key.
-/

/-- The two price-key sets of the ladder. -/
structure Ladder where
  buys : Finset ℚ
  sells : Finset ℚ

/-- Within one side, distinct resting prices are at least `N` apart. -/
def GapOK (N : ℚ) (s : Finset ℚ) : Prop :=
  ∀ p ∈ s, ∀ q ∈ s, p ≠ q → N ≤ |p - q|

/-- The two ladder invariants of the claim: per-side minimum gap and no
price on both sides. -/
def LadderInv (N : ℚ) (L : Ladder) : Prop :=
  GapOK N L.buys ∧ GapOK N L.sells ∧ ∀ p ∈ L.buys, p ∉ L.sells

/-- One engine mutation of the ladder key sets (see the section comment
for the mapping to `grid_engine.py` call sites). -/
inductive GStep (N : ℚ) : Ladder → Ladder → Prop
  | seedBuys (L : Ladder) (S : Finset ℚ) (mid X : ℚ) (levels : Nat)
      (hempty : L.buys = ∅)
      (htargets : ∀ p ∈ S, ∃ i : Nat, i < levels ∧ p = mid - (X + i * N))
      (hcross : ∀ p ∈ S, p ∉ L.sells) :
      GStep N L ⟨S, L.sells⟩
  | seedSells (L : Ladder) (S : Finset ℚ) (mid X : ℚ) (levels : Nat)
      (hempty : L.sells = ∅)
      (htargets : ∀ p ∈ S, ∃ i : Nat, i < levels ∧ p = mid + (X + i * N))
      (hcross : ∀ p ∈ S, p ∉ L.buys) :
      GStep N L ⟨L.buys, S⟩
  | placeBuy (L : Ladder) (p : ℚ)
      (hgap : ∀ q ∈ L.buys, N ≤ |p - q|)
      (hcross : p ∉ L.sells) :
      GStep N L ⟨insert p L.buys, L.sells⟩
  | placeSell (L : Ladder) (p : ℚ)
      (hgap : ∀ q ∈ L.sells, N ≤ |p - q|)
      (hcross : p ∉ L.buys) :
      GStep N L ⟨L.buys, insert p L.sells⟩
  | removeBuy (L : Ladder) (p : ℚ) : GStep N L ⟨L.buys.erase p, L.sells⟩
  | removeSell (L : Ladder) (p : ℚ) : GStep N L ⟨L.buys, L.sells.erase p⟩

/-- The engine starts with both maps empty (`__init__`, lines 60-61). -/
def emptyLadder : Ladder := ⟨∅, ∅⟩

/-- Ladder states reachable from the initial empty state. -/
def Reach (N : ℚ) : Ladder → Prop :=
  Relation.ReflTransGen (GStep N) emptyLadder

/-!
## Rate-limited executor — `MarketMakerEngine._place` (lines 291-305)
-/

/-- Outcome of one `adapter.place_order` call as seen by `_place`: an
order id, or an exception whose string form matched (`isRateLimit = true`)
or did not match the patterns
`"rateLimit" / "429" / "rateLimitWindows"`. -/
inductive PlaceOutcome where
  | ok (oid : String)
  | err (isRateLimit : Bool)
deriving DecidableEq, Repr

/-- The attempt loop of `_place`: `for attempt in range(retries + 1)`,
returning the order id on success; on an exception, sleeping `delay` and
retrying only when the message matched the rate-limit patterns and
`attempt < retries`; returning `None` otherwise.  Arguments: the
per-attempt venue outcomes, the current attempt index, the remaining
attempts (`retries + 1 - attempt`).  Returns
(result, venue calls made, sleeps performed). -/
def mm_placeGo (delay : ℚ) (out : Nat → PlaceOutcome) :
    Nat → Nat → Option String × Nat × List ℚ
  | _, 0 => (none, 0, [])
  | attempt, remaining + 1 =>
    match out attempt with
    | .ok oid => (some oid, 1, [])
    | .err isRL =>
      if isRL = true ∧ 0 < remaining then
        let r := mm_placeGo delay out (attempt + 1) remaining
        (r.1, r.2.1 + 1, delay :: r.2.2)
      else (none, 1, [])

/-- Model of `MarketMakerEngine._place`: `retries = 2`,
`delay = max(1.0, self.op_spacing_sec)`, so at most 3 venue calls. -/
def mm_place (op_spacing_sec : ℚ) (out : Nat → PlaceOutcome) :
    Option String × Nat × List ℚ :=
  mm_placeGo (max 1 op_spacing_sec) out 0 3

/-!
## Order-rejection handling — `EdgeXSDKAdapter.place_order`
(edgex_sdk.py lines 259-310)
-/

/-- The order payload echoed into every error detail (edgex_sdk.py line
260): the string renderings of the contract id, the already-quantized
size and price, and the side value. -/
structure OrderPayload where
  contract_id : String
  size : String
  price : String
  side : String
deriving DecidableEq

/-- The structured rejection body (`body = e.response.json()`): the
fields the handler copies — `code`, `msg`, the `errorParam` bound fields
(`tickSize`/`priceStep`/`stepSize`/`quantityStep`), and the echoed
`requestTime`/`responseTime` (each value modelled by its rendering in the
repr of the detail dict). -/
structure RejectBody where
  code : Option String
  msg : Option String
  tickSize : Option String
  priceStep : Option String
  stepSize : Option String
  quantityStep : Option String
  requestTime : Option String
  responseTime : Option String

/-- The `detail` dict assembled by the exception handler (lines 268-307),
in insertion order: the echoed payload always; for a structured body the
`code`, `msg`, the whole `errorParam` (its bound fields), the
request/response times and the operator hints; for an unstructured error
the raw error text; and the HTTP status (by its decimal rendering). -/
structure ErrorDetail where
  payload : OrderPayload
  code : Option String
  msg : Option String
  errorParam_tickSize : Option String
  errorParam_priceStep : Option String
  errorParam_stepSize : Option String
  errorParam_quantityStep : Option String
  requestTime : Option String
  responseTime : Option String
  hint_size_step : Option String
  hint_price_tick : Option String
  raw_error : Option String
  status : Option String
deriving DecidableEq

/-- Python truthiness filter on an optional string. -/
def truthy (o : Option String) : Option String :=
  match o with
  | some s => if s = "" then none else some s
  | none => none

/-- The operator hint for a size-step bound (line 301). -/
def sizeHint (s : String) : String :=
  "数量刻みに合わせてください（例: EDGEX_SIZE_STEP=" ++ s ++ "）"

/-- The operator hint for a price-tick bound (line 303). -/
def priceHint (s : String) : String :=
  "価格刻みに合わせてください（例: EDGEX_PRICE_TICK=" ++ s ++ "）"

/-- Lines 268-307: the detail starts from the echoed payload; a
structured body contributes `code`, `msg`, `errorParam`, `requestTime`,
`responseTime`, and — for each truthy bound
(`stepSize or quantityStep`, `tickSize or priceStep`) — a hint string;
an unstructured error contributes `raw_error = str(e)` instead; the HTTP
status is recorded when known. -/
def extract_detail (payload : OrderPayload) (body : Option RejectBody)
    (rawErr : String) (status : Option String) : ErrorDetail :=
  match body with
  | none =>
    ⟨payload, none, none, none, none, none, none, none, none, none, none,
      some rawErr, status⟩
  | some b =>
    ⟨payload, b.code, b.msg, b.tickSize, b.priceStep, b.stepSize,
      b.quantityStep, b.requestTime, b.responseTime,
      (truthy (pyOrStr b.stepSize b.quantityStep)).map sizeHint,
      (truthy (pyOrStr b.tickSize b.priceStep)).map priceHint,
      none, status⟩

/-- One SDK `create_limit_order` response: an ack with the order id, or a
raised error with an optional structured body, the raw error text used
when the body is unstructured, and the HTTP status when known. -/
inductive VenueResp where
  | ack (orderId : String)
  | reject (body : Option RejectBody) (rawErr : String) (status : Option String)

/-- Model of `EdgeXSDKAdapter.place_order`, venue-interaction part: the
SDK is called exactly once per adapter call; an ack yields the id, a
rejection is turned into `extract_detail` — the payload echo included —
and re-raised (`RuntimeError`, line 310); the adapter itself never makes
a second, clamped attempt.  Second component: the number of
`create_limit_order` calls. -/
def edgex_place_order (payload : OrderPayload) (resp : VenueResp) :
    Except ErrorDetail String × Nat :=
  match resp with
  | .ack oid => (Except.ok oid, 1)
  | .reject body rawErr status =>
    (Except.error (extract_detail payload body rawErr status), 1)

/-- Does the pattern occur at the head of the character list? -/
def charsStart : List Char → List Char → Bool
  | _, [] => true
  | [], _ :: _ => false
  | a :: as, b :: bs => a == b && charsStart as bs

/-- Does the pattern occur anywhere in the character list? -/
def charsFind : List Char → List Char → Bool
  | [], pat => pat.isEmpty
  | c :: rest, pat => charsStart (c :: rest) pat || charsFind rest pat

/-- Python `pat in s` for strings (substring containment). -/
def containsSub (s pat : String) : Bool := charsFind s.toList pat.toList

/-- The rate-limit message patterns of `_place` (mm_engine.py line 302). -/
def isRateLimitMsg (msg : String) : Bool :=
  containsSub msg "rateLimit" || containsSub msg "429"
    || containsSub msg "rateLimitWindows"

/-- Rendering of an optional value in the detail dict repr (`None` when
absent — the handler assigns `body.get(...)` results even when they are
`None`). -/
def optStr (o : Option String) : String := o.getD "None"

/-- The `RuntimeError` message rendered from the detail dict
(`edgex order failed:` followed by the repr of `detail`, line 310).
Every key and every rendered value of the dict appears, in insertion
order — in particular the echoed order price and size, the `errorParam`
bounds, the request/response times and the HTTP status — since
`_place`'s substring scan for `429`/`rateLimit` sees all of them; only
the repr's brace/quote punctuation is elided (none of it contains a
scanned pattern, nor do the fixed key names). -/
def renderDetailMsg (d : ErrorDetail) : String :=
  "edgex order failed: payload: contract_id=" ++ d.payload.contract_id
    ++ " size=" ++ d.payload.size
    ++ " price=" ++ d.payload.price
    ++ " side=" ++ d.payload.side
    ++ " code=" ++ optStr d.code
    ++ " msg=" ++ optStr d.msg
    ++ " errorParam: tickSize=" ++ optStr d.errorParam_tickSize
    ++ " priceStep=" ++ optStr d.errorParam_priceStep
    ++ " stepSize=" ++ optStr d.errorParam_stepSize
    ++ " quantityStep=" ++ optStr d.errorParam_quantityStep
    ++ " requestTime=" ++ optStr d.requestTime
    ++ " responseTime=" ++ optStr d.responseTime
    ++ " hint_size_step=" ++ optStr d.hint_size_step
    ++ " hint_price_tick=" ++ optStr d.hint_price_tick
    ++ " raw_error=" ++ optStr d.raw_error
    ++ " status=" ++ optStr d.status

/-- The composed executor: each `_place` attempt makes one adapter call
on that attempt's venue response, re-submitting the SAME quantized
payload every time (lines 296-297 rebuild an identical `OrderRequest`;
no price is ever clamped or altered between attempts); adapter errors
are classified by the rate-limit message patterns over the full rendered
detail. -/
def placePipeline (spacing : ℚ) (payload : OrderPayload)
    (venue : Nat → VenueResp) : Option String × Nat × List ℚ :=
  mm_place spacing (fun n =>
    match edgex_place_order payload (venue n) with
    | (Except.ok oid, _) => PlaceOutcome.ok oid
    | (Except.error d, _) => PlaceOutcome.err (isRateLimitMsg (renderDetailMsg d)))

/-- The spec's executor scenario: a rate-limit error on the first two
attempts, success on the third. -/
def rlTwiceThenOk : Nat → PlaceOutcome :=
  fun n => if n < 2 then PlaceOutcome.err true else PlaceOutcome.ok "oid1"

/-- A concrete price-band rejection body carrying a tick bound. -/
def bandBody : RejectBody :=
  ⟨some "ORDER_PRICE_OUT_OF_RANGE", some "price out of allowed band",
   some "0.5", none, none, none, none, none⟩

/-- A payload echo free of the rate-limit patterns. -/
def bandPayload : OrderPayload := ⟨"10000001", "0.01", "2000.5", "SELL"⟩

/-- A payload whose echoed order price contains the substring `429`. -/
def band429Payload : OrderPayload := ⟨"10000001", "0.01", "2429.5", "SELL"⟩

/-- A venue that rejects every attempt with `bandBody` and HTTP 400. -/
def bandVenue : Nat → VenueResp :=
  fun _ => VenueResp.reject (some bandBody) "" (some "400")

/-!
## Take-profit computation — `MarketMakerEngine._calc_tp_with_fees`

mm_engine.py lines 428-440.  Fee rates are bps over 10000; the long branch
divides by `max(1e-12, 1 - fe_out)` (the float literal `1e-12` is the exact
decimal `1/10^12`), the short branch by `1 + fe_out`.
-/

/-- Model of `_calc_tp_with_fees(is_long, entry_px, target_bps)`: the TP
price and the closing side. -/
def calc_tp_with_fees (fee_in_bps fee_out_bps : ℚ) (is_long : Bool)
    (entry_px target_bps : ℚ) : ℚ × OrderSide :=
  let fe_in := fee_in_bps / 10000
  let fe_out := fee_out_bps / 10000
  if is_long then
    (entry_px * (1 + fe_in) / max (1 / 10 ^ 12) (1 - fe_out)
        * (1 + target_bps / 10000), OrderSide.SELL)
  else
    (entry_px * (1 - fe_in) / (1 + fe_out) * (1 - target_bps / 10000),
      OrderSide.BUY)

end EdgeXBot

namespace EdgeXBot

/-!
## Claim theorems
-/

/-- In a map with `Nodup` keys, two entries with the same key are equal. -/
theorem keysNodup_entry_unique {m : SideMap} (hnd : (keys m).Nodup)
    {a b : ℚ × String} (ha : a ∈ m) (hb : b ∈ m) (hk : a.1 = b.1) : a = b := by
  induction m with
  | nil => cases ha
  | cons x xs ih =>
    have hnd' : (keys xs).Nodup := (List.nodup_cons.1 (by simpa [keys] using hnd)).2
    have hx : x.1 ∉ keys xs := (List.nodup_cons.1 (by simpa [keys] using hnd)).1
    rcases List.mem_cons.1 ha with ha1 | ha2
    · rcases List.mem_cons.1 hb with hb1 | hb2
      · rw [ha1, hb1]
      · exfalso
        apply hx
        have hxb : x.1 = b.1 := by rw [← ha1]; exact hk
        rw [hxb]
        exact List.mem_map.2 ⟨b, hb2, rfl⟩
    · rcases List.mem_cons.1 hb with hb1 | hb2
      · exfalso
        apply hx
        have hxa : x.1 = a.1 := by rw [← hb1]; exact hk.symm
        rw [hxa]
        exact List.mem_map.2 ⟨a, ha2, rfl⟩
      · exact ih hnd' ha2 hb2

/-- Claim C1: the fill-detection pass classifies exactly the ladder entries
whose order id is absent from the snapshot's id set as filled and removes
them; entries whose id is present are kept unchanged.  In particular for
buy ladder `{100 ↦ A, 105 ↦ B}` and a snapshot containing only `B`'s id,
price `100` is reported filled and removed and `{105 ↦ B}` remains. -/
theorem C1_fill_detection
    (side : SideMap) (rows : List SnapshotRow) (p : ℚ) (oid : String)
    (hnd : (keys side).Nodup) (hmem : (p, oid) ∈ side) :
    (oid ∉ activeIds rows →
      p ∈ (reconcileSide side (activeIds rows)).1 ∧
      (p, oid) ∉ (reconcileSide side (activeIds rows)).2) ∧
    (oid ∈ activeIds rows →
      (p, oid) ∈ (reconcileSide side (activeIds rows)).2 ∧
      p ∉ (reconcileSide side (activeIds rows)).1) ∧
    reconcileSide [(100, "A"), (105, "B")] ["B"] = ([100], [(105, "B")]) := by
  refine ⟨?_, ?_, by decide⟩
  · intro habs
    constructor
    · refine List.mem_map.2 ⟨(p, oid), ?_, rfl⟩
      exact List.mem_filter.2 ⟨hmem, by simpa using habs⟩
    · intro hc
      have h2 := (List.mem_filter.1 hc).2
      exact habs (by simpa using h2)
  · intro hpres
    constructor
    · exact List.mem_filter.2 ⟨hmem, by simpa using hpres⟩
    · intro hc
      rcases List.mem_map.1 hc with ⟨e, he, hep⟩
      have h2 := (List.mem_filter.1 he).2
      have hem : e ∈ side := (List.mem_filter.1 he).1
      -- with unique keys, the entry at price `p` is exactly `(p, oid)`
      have hkey : e.1 = p := hep
      have : e = (p, oid) := by
        have := keysNodup_entry_unique hnd hem hmem (by rw [hkey])
        exact this
      rw [this] at h2
      simp at h2
      exact h2 hpres

/-- Claim C6: for every raw price and positive tick, price quantization is
side-conservative: BUY rounds down (result ≤ raw), SELL rounds up
(result ≥ raw). -/
theorem C6_quantize_side_conservative (p tick : ℚ) (h : 0 < tick) :
    roundPx OrderSide.BUY tick p ≤ p ∧ p ≤ roundPx OrderSide.SELL tick p := by
  constructor
  · have h1 : ((⌊p / tick⌋ : ℤ) : ℚ) ≤ p / tick := Int.floor_le _
    calc ((⌊p / tick⌋ : ℤ) : ℚ) * tick ≤ (p / tick) * tick := by
          exact mul_le_mul_of_nonneg_right h1 h.le
      _ = p := div_mul_cancel₀ _ h.ne'
  · have h1 : p / tick ≤ ((⌈p / tick⌉ : ℤ) : ℚ) := Int.le_ceil _
    calc p = (p / tick) * tick := (div_mul_cancel₀ _ h.ne').symm
      _ ≤ ((⌈p / tick⌉ : ℤ) : ℚ) * tick := mul_le_mul_of_nonneg_right h1 h.le

/-- Witness for C6 at `p = 105`, `tick = 10`. -/
theorem C6_quantize_side_conservative_witness :
    roundPx OrderSide.BUY 10 105 ≤ 105 ∧ (105 : ℚ) ≤ roundPx OrderSide.SELL 10 105 :=
  C6_quantize_side_conservative 105 10 (by norm_num)

/-- Witness for C1 at the spec's example: ladder `{100 ↦ A, 105 ↦ B}`,
snapshot row carrying only id `B`, entry `(100, A)`. -/
theorem C1_fill_detection_witness :
    ("A" ∉ activeIds [⟨some "B", none, none, none, none⟩] →
      (100 : ℚ) ∈ (reconcileSide [(100, "A"), (105, "B")]
          (activeIds [⟨some "B", none, none, none, none⟩])).1 ∧
      ((100 : ℚ), "A") ∉ (reconcileSide [(100, "A"), (105, "B")]
          (activeIds [⟨some "B", none, none, none, none⟩])).2) ∧
    ("A" ∈ activeIds [⟨some "B", none, none, none, none⟩] →
      ((100 : ℚ), "A") ∈ (reconcileSide [(100, "A"), (105, "B")]
          (activeIds [⟨some "B", none, none, none, none⟩])).2 ∧
      (100 : ℚ) ∉ (reconcileSide [(100, "A"), (105, "B")]
          (activeIds [⟨some "B", none, none, none, none⟩])).1) ∧
    reconcileSide [(100, "A"), (105, "B")] ["B"] = ([100], [(105, "B")]) :=
  C1_fill_detection [(100, "A"), (105, "B")] [⟨some "B", none, none, none, none⟩]
    100 "A" (by decide) (by decide)

/-- Rounding a price to the tick is idempotent. -/
theorem roundPx_idem (side : OrderSide) (t p : ℚ) (ht : 0 < t) :
    roundPx side t (roundPx side t p) = roundPx side t p := by
  cases side <;> simp only [roundPx] <;>
    rw [mul_div_cancel_right₀ _ ht.ne'] <;> simp

/-- The size round (step part) always returns at least one step. -/
theorem roundSz_ge_step (s q : ℚ) (hs : 0 < s) : s ≤ roundSz s q := by
  simp only [roundSz]
  split
  · exact le_refl s
  · rename_i hv
    push_neg at hv
    have h1 : (0 : ℤ) < ⌊q / s⌋ := by
      by_contra hle
      push_neg at hle
      have hle' : ((⌊q / s⌋ : ℤ) : ℚ) ≤ 0 := by exact_mod_cast hle
      nlinarith
    have h2 : (1 : ℚ) ≤ ((⌊q / s⌋ : ℤ) : ℚ) := by exact_mod_cast h1
    nlinarith

/-- For `s < m`, rounding `m` down to the step stays at or below `m`. -/
theorem roundSz_le_self (s m : ℚ) (hs : 0 < s) (hm : s < m) : roundSz s m ≤ m := by
  have h1 : (1 : ℤ) ≤ ⌊m / s⌋ := by
    rw [Int.le_floor]
    push_cast
    rw [le_div_iff₀ hs]
    linarith
  have hv : (0 : ℚ) < (⌊m / s⌋ : ℤ) * s := by
    have h1' : (1 : ℚ) ≤ ((⌊m / s⌋ : ℤ) : ℚ) := by exact_mod_cast h1
    nlinarith
  simp only [roundSz]
  rw [if_neg hv.not_le]
  have h2 : ((⌊m / s⌋ : ℤ) : ℚ) ≤ m / s := Int.floor_le _
  calc ((⌊m / s⌋ : ℤ) : ℚ) * s ≤ (m / s) * s := mul_le_mul_of_nonneg_right h2 hs.le
    _ = m := div_mul_cancel₀ _ hs.ne'

/-- The size round (step part) is idempotent. -/
theorem roundSz_idem (s q : ℚ) (hs : 0 < s) : roundSz s (roundSz s q) = roundSz s q := by
  by_cases hv : (⌊q / s⌋ : ℤ) * s ≤ 0
  · have h1 : roundSz s q = s := by simp only [roundSz]; rw [if_pos hv]
    rw [h1]
    simp only [roundSz]
    rw [div_self hs.ne', Int.floor_one]
    simp [not_le.mpr hs]
  · have h1 : roundSz s q = (⌊q / s⌋ : ℤ) * s := by simp only [roundSz]; rw [if_neg hv]
    rw [h1]
    simp only [roundSz]
    rw [mul_div_cancel_right₀ _ hs.ne', Int.floor_intCast, if_neg hv]

/-- The env/metadata step-rounding stage is idempotent. -/
theorem sizeStepPart_idem (envStep ruleStep : Option ℚ) (q : ℚ) :
    sizeStepPart envStep ruleStep (sizeStepPart envStep ruleStep q) =
      sizeStepPart envStep ruleStep q := by
  rcases envStep with _ | s
  · rcases ruleStep with _ | s
    · rfl
    · simp only [sizeStepPart]
      by_cases hs : 0 < s
      · rw [if_pos hs, if_pos hs, roundSz_idem s q hs]
      · rw [if_neg hs, if_neg hs]
  · simp only [sizeStepPart]
    by_cases hs : 0 < s
    · rw [if_pos hs, if_pos hs, roundSz_idem s q hs]
    · rw [if_neg hs, if_neg hs]

/-- If the step stage ever produced a value below `m`, then applying it to
`m` cannot exceed `m`. -/
theorem sizeStepPart_le (envStep ruleStep : Option ℚ) (m q : ℚ)
    (h : sizeStepPart envStep ruleStep q < m) :
    sizeStepPart envStep ruleStep m ≤ m := by
  rcases envStep with _ | s
  · rcases ruleStep with _ | s
    · exact le_refl m
    · simp only [sizeStepPart] at h ⊢
      by_cases hs : 0 < s
      · rw [if_pos hs] at h ⊢
        exact roundSz_le_self s m hs (lt_of_le_of_lt (roundSz_ge_step s q hs) h)
      · rw [if_neg hs]
  · simp only [sizeStepPart] at h ⊢
    by_cases hs : 0 < s
    · rw [if_pos hs] at h ⊢
      exact roundSz_le_self s m hs (lt_of_le_of_lt (roundSz_ge_step s q hs) h)
    · rw [if_neg hs]

/-- The `min_size` raise wrapped around an idempotent, self-bounded stage
is idempotent. -/
theorem minRaise_idem (g : ℚ → ℚ) (m : ℚ)
    (hidem : ∀ x, g (g x) = g x)
    (hle : ∀ x, g x < m → g m ≤ m) (q : ℚ) :
    (if m ≠ 0 ∧ g (if m ≠ 0 ∧ g q < m then m else g q) < m then m
     else g (if m ≠ 0 ∧ g q < m then m else g q)) =
      (if m ≠ 0 ∧ g q < m then m else g q) := by
  by_cases hc : m ≠ 0 ∧ g q < m
  · rw [if_pos hc]
    by_cases hc2 : m ≠ 0 ∧ g m < m
    · rw [if_pos hc2]
    · rw [if_neg hc2]
      have hgm : g m ≤ m := hle q hc.2
      have : ¬ g m < m := fun hlt => hc2 ⟨hc.1, hlt⟩
      linarith
  · rw [if_neg hc, hidem, if_neg hc]

/-- Claim C9: quantization is idempotent: re-quantizing an already quantized
price or size returns it unchanged, for every configuration of env
overrides, venue-metadata rules and minimum size; the rounding is modelled
in exact (rational) arithmetic, matching the source's `Decimal` path. -/
theorem C9_quantize_idempotent (envTick ruleTick : Option ℚ) (side : OrderSide)
    (envStep ruleStep minSize : Option ℚ) (p q : ℚ) :
    quantizePx envTick ruleTick side (quantizePx envTick ruleTick side p) =
      quantizePx envTick ruleTick side p ∧
    quantizeSz envStep ruleStep minSize (quantizeSz envStep ruleStep minSize q) =
      quantizeSz envStep ruleStep minSize q := by
  constructor
  · rcases envTick with _ | t
    · rcases ruleTick with _ | t
      · rfl
      · simp only [quantizePx]
        by_cases ht : 0 < t
        · rw [if_pos ht, if_pos ht, roundPx_idem side t p ht]
        · rw [if_neg ht, if_neg ht]
    · simp only [quantizePx]
      by_cases ht : 0 < t
      · rw [if_pos ht, if_pos ht, roundPx_idem side t p ht]
      · rw [if_neg ht, if_neg ht]
  · rcases minSize with _ | m
    · simpa only [quantizeSz] using sizeStepPart_idem envStep ruleStep q
    · simpa only [quantizeSz] using
        minRaise_idem (sizeStepPart envStep ruleStep) m
          (sizeStepPart_idem envStep ruleStep)
          (fun x hx => sizeStepPart_le envStep ruleStep m x hx) q

/-- Claim C10, counterexample: the claim fails as stated: (i) with exit fee
rate `1 - 10⁻¹³` (non-negative and below 100%), entry `1`, zero entry fee
and zero target, the long TP misses breakeven because the source clamps
the denominator at `1e-12`; (ii) with entry fee rate 200% and target
10000 bps, the short TP misses breakeven. -/
theorem C10_counterexample :
    (¬ (0 ≤ ((calc_tp_with_fees 0 (10000 - 1 / 10 ^ 9) true 1 0).1 - 1)
        - (1 * ((0 : ℚ) / 10000)
           + (calc_tp_with_fees 0 (10000 - 1 / 10 ^ 9) true 1 0).1
             * ((10000 - 1 / 10 ^ 9) / 10000)))) ∧
    (¬ (0 ≤ (1 - (calc_tp_with_fees 20000 0 false 1 10000).1)
        - (1 * ((20000 : ℚ) / 10000)
           + (calc_tp_with_fees 20000 0 false 1 10000).1 * ((0 : ℚ) / 10000)))) := by
  constructor
  · norm_num [calc_tp_with_fees]
  · norm_num [calc_tp_with_fees]

/-- Claim C10, amended: for entry price > 0, entry fee rate in `[0, 1]`,
exit fee rate in `[0, 1 - 10⁻¹²]` and target ≥ 0, the take-profit carries
the closing side (SELL for long, BUY for short) and satisfies the
breakeven inequality on both sides. -/
theorem C10_tp_breakeven (fee_in_bps fee_out_bps entry tb : ℚ)
    (hentry : 0 < entry) (hin0 : 0 ≤ fee_in_bps) (hin1 : fee_in_bps ≤ 10000)
    (hout0 : 0 ≤ fee_out_bps)
    (hout1 : fee_out_bps / 10000 ≤ 1 - 1 / 10 ^ 12)
    (htb : 0 ≤ tb) :
    ((calc_tp_with_fees fee_in_bps fee_out_bps true entry tb).2 = OrderSide.SELL ∧
      0 ≤ ((calc_tp_with_fees fee_in_bps fee_out_bps true entry tb).1 - entry)
        - (entry * (fee_in_bps / 10000)
           + (calc_tp_with_fees fee_in_bps fee_out_bps true entry tb).1
             * (fee_out_bps / 10000))) ∧
    ((calc_tp_with_fees fee_in_bps fee_out_bps false entry tb).2 = OrderSide.BUY ∧
      0 ≤ (entry - (calc_tp_with_fees fee_in_bps fee_out_bps false entry tb).1)
        - (entry * (fee_in_bps / 10000)
           + (calc_tp_with_fees fee_in_bps fee_out_bps false entry tb).1
             * (fee_out_bps / 10000))) := by
  have hfin0 : 0 ≤ fee_in_bps / 10000 := by positivity
  have hfin1 : fee_in_bps / 10000 ≤ 1 := by
    rw [div_le_one (by norm_num)]
    exact hin1
  have hfout0 : 0 ≤ fee_out_bps / 10000 := by positivity
  have htb' : 0 ≤ tb / 10000 := by positivity
  constructor
  · refine ⟨rfl, ?_⟩
    have hmax : max ((1 : ℚ) / 10 ^ 12) (1 - fee_out_bps / 10000)
        = 1 - fee_out_bps / 10000 := max_eq_right (by linarith)
    have hd : (0 : ℚ) < 1 - fee_out_bps / 10000 := by
      have h12 : (0 : ℚ) < 1 / 10 ^ 12 := by norm_num
      linarith
    have hval0 : (calc_tp_with_fees fee_in_bps fee_out_bps true entry tb).1
        = entry * (1 + fee_in_bps / 10000)
            / max ((1 : ℚ) / 10 ^ 12) (1 - fee_out_bps / 10000)
            * (1 + tb / 10000) := rfl
    rw [hval0, hmax]
    have key : entry * (1 + fee_in_bps / 10000) / (1 - fee_out_bps / 10000)
          * (1 + tb / 10000) * (1 - fee_out_bps / 10000)
        = entry * (1 + fee_in_bps / 10000) * (1 + tb / 10000) := by
      rw [mul_right_comm, div_mul_cancel₀ _ hd.ne']
    have expand :
        (entry * (1 + fee_in_bps / 10000) / (1 - fee_out_bps / 10000)
            * (1 + tb / 10000) - entry)
          - (entry * (fee_in_bps / 10000)
             + entry * (1 + fee_in_bps / 10000) / (1 - fee_out_bps / 10000)
               * (1 + tb / 10000) * (fee_out_bps / 10000))
        = entry * (1 + fee_in_bps / 10000) / (1 - fee_out_bps / 10000)
            * (1 + tb / 10000) * (1 - fee_out_bps / 10000)
          - entry * (1 + fee_in_bps / 10000) := by ring
    rw [expand, key]
    have hfactor : entry * (1 + fee_in_bps / 10000) * (1 + tb / 10000)
        - entry * (1 + fee_in_bps / 10000)
        = entry * (1 + fee_in_bps / 10000) * (tb / 10000) := by ring
    rw [hfactor]
    have h1 : (0 : ℚ) ≤ entry * (1 + fee_in_bps / 10000) :=
      mul_nonneg hentry.le (by linarith)
    exact mul_nonneg h1 htb'
  · refine ⟨rfl, ?_⟩
    have he : (0 : ℚ) < 1 + fee_out_bps / 10000 := by linarith
    have hvalS : (calc_tp_with_fees fee_in_bps fee_out_bps false entry tb).1
        = entry * (1 - fee_in_bps / 10000) / (1 + fee_out_bps / 10000)
            * (1 - tb / 10000) := rfl
    rw [hvalS]
    have keyS : entry * (1 - fee_in_bps / 10000) / (1 + fee_out_bps / 10000)
          * (1 - tb / 10000) * (1 + fee_out_bps / 10000)
        = entry * (1 - fee_in_bps / 10000) * (1 - tb / 10000) := by
      rw [mul_right_comm, div_mul_cancel₀ _ he.ne']
    have expandS :
        (entry - entry * (1 - fee_in_bps / 10000) / (1 + fee_out_bps / 10000)
           * (1 - tb / 10000))
          - (entry * (fee_in_bps / 10000)
             + entry * (1 - fee_in_bps / 10000) / (1 + fee_out_bps / 10000)
               * (1 - tb / 10000) * (fee_out_bps / 10000))
        = entry * (1 - fee_in_bps / 10000)
          - entry * (1 - fee_in_bps / 10000) / (1 + fee_out_bps / 10000)
            * (1 - tb / 10000) * (1 + fee_out_bps / 10000) := by ring
    rw [expandS, keyS]
    have hfactorS : entry * (1 - fee_in_bps / 10000)
        - entry * (1 - fee_in_bps / 10000) * (1 - tb / 10000)
        = entry * (1 - fee_in_bps / 10000) * (tb / 10000) := by ring
    rw [hfactorS]
    have h1 : (0 : ℚ) ≤ entry * (1 - fee_in_bps / 10000) :=
      mul_nonneg hentry.le (by linarith)
    exact mul_nonneg h1 htb'

/-- Keys of an insertion: the new key in front of the keys of the map
with the old binding removed. -/
theorem keys_insertKey (m : SideMap) (px : ℚ) (oid : String) :
    keys (insertKey m px oid) = px :: keys (eraseKey m px) := rfl

/-- A key of `eraseKey m q` is a key of `m`. -/
theorem mem_keys_eraseKey {m : SideMap} {p q : ℚ}
    (h : p ∈ keys (eraseKey m q)) : p ∈ keys m := by
  rcases List.mem_map.1 h with ⟨e, he, hep⟩
  exact List.mem_map.2 ⟨e, (List.mem_filter.1 he).1, hep⟩

/-- Claim C2: when a buy fill is detected: (1) the farthest (maximum) sell is
popped and its cancel attempted; (2) one sell is placed one step inside the
new nearest sell (`min(sells) - N`); (3) one buy is placed one step outside
the farthest buy (`min(buys) - N`).  The attempted action sequence is the
same for every combination of venue-call outcomes (`okSell`, `okBuy`; the
cancel outcome is ignored by the source), so failure of one sub-step does
not block the others; with all calls succeeding the maps gain exactly the
two new orders and lose the cancelled one. -/
theorem C2_anchor_replenish
    (N : ℚ) (buys sells : SideMap) (filledBuys : List ℚ)
    (active : List (OrderSide × ℚ)) (idSell idBuy : String)
    (m n v : ℚ) (fid : String)
    (hf : ¬ filledBuys = [])
    (hm : listMax (keys sells) = some m)
    (hfid : lookupKey sells m = some fid)
    (hn : listMin (keys (eraseKey sells m)) = some n)
    (hv : listMin (keys buys) = some v)
    (h2mem : n - N ∉ keys (eraseKey sells m))
    (h2pos : 0 < n - N)
    (h2act : active.any
      (fun r => r.1 == OrderSide.SELL && decide (|r.2 - (n - N)| < N - eps)) = false)
    (h2cross : n - N ∉ keys buys)
    (h3pos : 0 < v - N)
    (h3mem : v - N ∉ keys buys)
    (h3act : active.any
      (fun r => r.1 == OrderSide.BUY && decide (|r.2 - (v - N)| < N - eps)) = false)
    (h3crossA : v - N ∉ keys (eraseKey sells m))
    (h3crossB : ¬ v - N = n - N) :
    (∀ okSell okBuy : Bool,
      (replenishBuyFill N buys sells filledBuys active idSell idBuy okSell okBuy).2.2
        = [GAction.cancel fid, GAction.place OrderSide.SELL (n - N),
           GAction.place OrderSide.BUY (v - N)]) ∧
    (replenishBuyFill N buys sells filledBuys active idSell idBuy true true).1
      = insertKey buys (v - N) idBuy ∧
    (replenishBuyFill N buys sells filledBuys active idSell idBuy true true).2.1
      = insertKey (eraseKey sells m) (n - N) idSell := by
  have hins : v - N ∉ keys (insertKey (eraseKey sells m) (n - N) idSell) := by
    rw [keys_insertKey]
    intro hx
    rcases List.mem_cons.1 hx with h1 | h2
    · exact h3crossB h1
    · exact h3crossA (mem_keys_eraseKey h2)
  have h3crossC : v - N ∉ keys (eraseKey (eraseKey sells m) (n - N)) :=
    fun hx => h3crossA (mem_keys_eraseKey hx)
  constructor
  · intro okSell okBuy
    cases okSell <;> cases okBuy <;>
      simp [replenishBuyFill, hf, hm, hn, hv, hfid, place_order, h2act, h3act,
        h2mem, h2pos, h2cross, h3pos, h3mem, h3crossA, h3crossB, h3crossC, hins,
        mem_keys_eraseKey, keys_insertKey]
  · constructor <;>
      simp [replenishBuyFill, hf, hm, hn, hv, hfid, place_order, h2act, h3act,
        h2mem, h2pos, h2cross, h3pos, h3mem, h3crossA, h3crossB, h3crossC, hins,
        mem_keys_eraseKey, keys_insertKey]

/-- Witness for C2 at the spec's scenario: `step = 100`, buy ladder
`{900, 800, 700}` with `900` just filled (so the map holds `800, 700`),
sell ladder `{1100, 1200, 1300}`: cancel sell `1300`, place sell at
`1000`, place buy at `600`. -/
theorem C2_anchor_replenish_witness :
    (∀ okSell okBuy : Bool,
      (replenishBuyFill 100 [(800, "b8"), (700, "b7")]
        [(1100, "s1"), (1200, "s2"), (1300, "s3")] [900] [] "ns" "ob"
        okSell okBuy).2.2
        = [GAction.cancel "s3", GAction.place OrderSide.SELL (1100 - 100),
           GAction.place OrderSide.BUY (700 - 100)]) ∧
    (replenishBuyFill 100 [(800, "b8"), (700, "b7")]
      [(1100, "s1"), (1200, "s2"), (1300, "s3")] [900] [] "ns" "ob"
      true true).1
      = insertKey [(800, "b8"), (700, "b7")] (700 - 100) "ob" ∧
    (replenishBuyFill 100 [(800, "b8"), (700, "b7")]
      [(1100, "s1"), (1200, "s2"), (1300, "s3")] [900] [] "ns" "ob"
      true true).2.1
      = insertKey (eraseKey [(1100, "s1"), (1200, "s2"), (1300, "s3")] 1300)
          (1100 - 100) "ns" :=
  C2_anchor_replenish 100 [(800, "b8"), (700, "b7")]
    [(1100, "s1"), (1200, "s2"), (1300, "s3")] [900] [] "ns" "ob"
    1300 1100 700 "s3"
    (by norm_num) (by norm_num [listMax, keys])
    (by norm_num [lookupKey, eraseKey, keys])
    (by norm_num [listMin, eraseKey, keys]) (by norm_num [listMin, keys])
    (by norm_num [eraseKey, keys]) (by norm_num) (by norm_num)
    (by norm_num [keys]) (by norm_num) (by norm_num [keys]) (by norm_num)
    (by norm_num [eraseKey, keys]) (by norm_num)

/-- Any call made by `_place_order` is the single place of its own side
and candidate price. -/
theorem place_order_calls_sub (step : ℚ) (buys sells : SideMap)
    (active : List (OrderSide × ℚ)) (side : OrderSide) (px : ℚ) (oid : String)
    (ok : Bool) (a : GAction)
    (ha : a ∈ (place_order step buys sells active side px oid ok).calls) :
    a = GAction.place side px := by
  cases side <;> unfold place_order at ha <;> split_ifs at ha <;> simp_all

/-- Soundness of the BUY seeding loop: every BUY place it emits is one of
its targets, positive, and strictly below `P - 1e-9`. -/
theorem seedBuysGo_mem (N mid : ℚ) (maxNew : Nat)
    (active : List (OrderSide × ℚ)) (idg : Nat → String) (ok : Nat → Bool)
    (targets : List ℚ) (s : OrderSide) (px : ℚ) :
    ∀ (buys sells : SideMap) (cnt : Nat) (acts : List GAction),
      GAction.place s px
        ∈ (seedBuysGo N mid maxNew active idg ok targets buys sells cnt acts).2.2 →
      GAction.place s px ∈ acts ∨
        (s = OrderSide.BUY ∧ px ∈ targets ∧ 0 < px ∧ px < mid - eps) := by
  induction targets with
  | nil => exact fun buys sells cnt acts h => Or.inl h
  | cons t rest ih =>
    intro buys sells cnt acts h
    simp only [seedBuysGo] at h
    by_cases h1 : t ≤ 0
    · rw [if_pos h1] at h
      rcases ih _ _ _ _ h with hl | hr
      · exact Or.inl hl
      · exact Or.inr ⟨hr.1, List.mem_cons_of_mem t hr.2.1, hr.2.2⟩
    rw [if_neg h1] at h
    by_cases h2 : mid - eps ≤ t
    · rw [if_pos h2] at h
      rcases ih _ _ _ _ h with hl | hr
      · exact Or.inl hl
      · exact Or.inr ⟨hr.1, List.mem_cons_of_mem t hr.2.1, hr.2.2⟩
    rw [if_neg h2] at h
    by_cases h3 : t ∈ keys buys
    · rw [if_pos h3] at h
      rcases ih _ _ _ _ h with hl | hr
      · exact Or.inl hl
      · exact Or.inr ⟨hr.1, List.mem_cons_of_mem t hr.2.1, hr.2.2⟩
    rw [if_neg h3] at h
    by_cases h4 : has_min_gap N buys t = false
    · rw [if_pos h4] at h
      rcases ih _ _ _ _ h with hl | hr
      · exact Or.inl hl
      · exact Or.inr ⟨hr.1, List.mem_cons_of_mem t hr.2.1, hr.2.2⟩
    rw [if_neg h4] at h
    by_cases h5 : maxNew ≠ 0 ∧ maxNew ≤ cnt
    · rw [if_pos h5] at h
      exact Or.inl h
    rw [if_neg h5] at h
    rcases ih _ _ _ _ h with hl | hr
    · rcases List.mem_append.1 hl with hl1 | hl2
      · exact Or.inl hl1
      · have heq := place_order_calls_sub _ _ _ _ _ _ _ _ _ hl2
        rcases GAction.place.inj heq with ⟨hs, hpx⟩
        refine Or.inr ⟨hs, ?_, ?_, ?_⟩
        · rw [hpx]; exact List.mem_cons_self _ _
        · rw [hpx]; exact not_le.mp h1
        · rw [hpx]; exact not_le.mp h2
    · exact Or.inr ⟨hr.1, List.mem_cons_of_mem t hr.2.1, hr.2.2⟩

/-- Soundness of the SELL seeding loop: every SELL place it emits is one
of its targets and strictly above `P + 1e-9`. -/
theorem seedSellsGo_mem (N mid : ℚ) (maxNew : Nat)
    (active : List (OrderSide × ℚ)) (idg : Nat → String) (ok : Nat → Bool)
    (targets : List ℚ) (s : OrderSide) (px : ℚ) :
    ∀ (buys sells : SideMap) (cnt : Nat) (acts : List GAction),
      GAction.place s px
        ∈ (seedSellsGo N mid maxNew active idg ok targets buys sells cnt acts).2.2 →
      GAction.place s px ∈ acts ∨
        (s = OrderSide.SELL ∧ px ∈ targets ∧ mid + eps < px) := by
  induction targets with
  | nil => exact fun buys sells cnt acts h => Or.inl h
  | cons t rest ih =>
    intro buys sells cnt acts h
    simp only [seedSellsGo] at h
    by_cases h1 : t ∈ keys sells
    · rw [if_pos h1] at h
      rcases ih _ _ _ _ h with hl | hr
      · exact Or.inl hl
      · exact Or.inr ⟨hr.1, List.mem_cons_of_mem t hr.2.1, hr.2.2⟩
    rw [if_neg h1] at h
    by_cases h2 : has_min_gap N sells t = false
    · rw [if_pos h2] at h
      rcases ih _ _ _ _ h with hl | hr
      · exact Or.inl hl
      · exact Or.inr ⟨hr.1, List.mem_cons_of_mem t hr.2.1, hr.2.2⟩
    rw [if_neg h2] at h
    by_cases h3 : t ≤ mid + eps
    · rw [if_pos h3] at h
      rcases ih _ _ _ _ h with hl | hr
      · exact Or.inl hl
      · exact Or.inr ⟨hr.1, List.mem_cons_of_mem t hr.2.1, hr.2.2⟩
    rw [if_neg h3] at h
    by_cases h4 : maxNew ≠ 0 ∧ maxNew ≤ cnt
    · rw [if_pos h4] at h
      exact Or.inl h
    rw [if_neg h4] at h
    rcases ih _ _ _ _ h with hl | hr
    · rcases List.mem_append.1 hl with hl1 | hl2
      · exact Or.inl hl1
      · have heq := place_order_calls_sub _ _ _ _ _ _ _ _ _ hl2
        rcases GAction.place.inj heq with ⟨hs, hpx⟩
        refine Or.inr ⟨hs, ?_, ?_⟩
        · rw [hpx]; exact List.mem_cons_self _ _
        · rw [hpx]; exact not_le.mp h3
    · exact Or.inr ⟨hr.1, List.mem_cons_of_mem t hr.2.1, hr.2.2⟩

/-- Claim C3, seeding, settled as a code bug: the source's initial SELL
seeding loop ends in a mis-indented `await asyncio.sleep`
(grid_engine.py line 420, a Python `IndentationError`), so the module
cannot be imported and the claimed seeding never executes; the claim
states the evident intent, which this theorem proves over the loop with
that line repaired.  Intended semantics: every order the initial seeding
pass places sits at one of the arithmetic targets `P ∓ (X + k·N)`,
`k < levels`, strictly on the passive side of the market — any buy
target at or above `P - 1e-9` and any sell target at or below
`P + 1e-9` is skipped; on the spec's example (empty ladder, `P = 50000`,
`X = 100`, `N = 50`, `levels = 3`) it places exactly buys
`49900, 49850, 49800` and sells `50100, 50150, 50200`. -/
theorem C3_seeding (N X mid : ℚ) (levels maxNew : Nat)
    (active : List (OrderSide × ℚ)) (idgB idgS : Nat → String)
    (okB okS : Nat → Bool) (buys sells : SideMap) (s : OrderSide) (px : ℚ) :
    (GAction.place s px
        ∈ (ensure_grid_init N X mid levels maxNew active idgB idgS okB okS
            buys sells).2.2 →
      (s = OrderSide.BUY ∧ (∃ i : Nat, i < levels ∧ px = mid - (X + i * N))
        ∧ 0 < px ∧ px < mid - eps) ∨
      (s = OrderSide.SELL ∧ (∃ i : Nat, i < levels ∧ px = mid + (X + i * N))
        ∧ mid + eps < px)) ∧
    (ensure_grid_init 50 100 50000 3 0 [] (fun _ => "b") (fun _ => "s")
      (fun _ => true) (fun _ => true) [] []).2.2 =
    [GAction.place OrderSide.BUY 49900, GAction.place OrderSide.BUY 49850,
     GAction.place OrderSide.BUY 49800, GAction.place OrderSide.SELL 50100,
     GAction.place OrderSide.SELL 50150, GAction.place OrderSide.SELL 50200] := by
  constructor
  · intro h
    simp only [ensure_grid_init] at h
    rcases List.mem_append.1 h with h1 | h2
    · rcases seedBuysGo_mem N mid maxNew active idgB okB
        (buyTargets mid X N levels) s px _ _ _ _ h1 with hl | hr
      · cases hl
      · left
        obtain ⟨hside, hmem, hrest⟩ := hr
        rw [buyTargets] at hmem
        rcases List.mem_map.1 hmem with ⟨i, hi, hpx⟩
        exact ⟨hside, ⟨i, List.mem_range.1 hi, hpx.symm⟩, hrest⟩
    · rcases seedSellsGo_mem N mid maxNew active idgS okS
        (sellTargets mid X N levels) s px _ _ _ _ h2 with hl | hr
      · cases hl
      · right
        obtain ⟨hside, hmem, hrest⟩ := hr
        rw [sellTargets] at hmem
        rcases List.mem_map.1 hmem with ⟨i, hi, hpx⟩
        exact ⟨hside, ⟨i, List.mem_range.1 hi, hpx.symm⟩, hrest⟩
  · norm_num [ensure_grid_init, seedBuysGo, seedSellsGo, buyTargets, sellTargets,
      List.range_succ, place_order, has_min_gap, keys, lookupKey, eraseKey,
      insertKey, listMin, listMax, eps]

/-- Witness for C3: on the spec's example, the placed buy `49900` is the
target `50000 - (100 + 0·50)`, positive and strictly below the market. -/
theorem C3_seeding_witness :
    (OrderSide.BUY = OrderSide.BUY
      ∧ (∃ i : Nat, i < 3 ∧ (49900 : ℚ) = 50000 - (100 + i * 50))
      ∧ (0 : ℚ) < 49900 ∧ (49900 : ℚ) < 50000 - eps) ∨
    (OrderSide.BUY = OrderSide.SELL
      ∧ (∃ i : Nat, i < 3 ∧ (49900 : ℚ) = 50000 + (100 + i * 50))
      ∧ (50000 : ℚ) + eps < 49900) :=
  (C3_seeding 50 100 50000 3 0 [] (fun _ => "b") (fun _ => "s") (fun _ => true)
    (fun _ => true) [] [] OrderSide.BUY 49900).1
    (by
      rw [(C3_seeding 50 100 50000 3 0 [] (fun _ => "b") (fun _ => "s")
        (fun _ => true) (fun _ => true) [] [] OrderSide.BUY 49900).2]
      simp)

theorem cancelCount_append (a b : List GAction) :
    cancelCount (a ++ b) = cancelCount a + cancelCount b := by
  simp [cancelCount, List.filter_append]

theorem placeCount_append (a b : List GAction) :
    placeCount (a ++ b) = placeCount a + placeCount b := by
  simp [placeCount, List.filter_append]

/-- The `_place_order` model never cancels. -/
theorem place_order_cancelCount (step : ℚ) (buys sells : SideMap)
    (active : List (OrderSide × ℚ)) (side : OrderSide) (px : ℚ) (oid : String)
    (ok : Bool) :
    cancelCount (place_order step buys sells active side px oid ok).calls = 0 := by
  cases side <;> unfold place_order <;> split_ifs <;> simp [cancelCount]

/-- The `_place_order` model makes at most one place call. -/
theorem place_order_placeCount (step : ℚ) (buys sells : SideMap)
    (active : List (OrderSide × ℚ)) (side : OrderSide) (px : ℚ) (oid : String)
    (ok : Bool) :
    placeCount (place_order step buys sells active side px oid ok).calls ≤ 1 := by
  cases side <;> unfold place_order <;> split_ifs <;> simp [placeCount]

/-- Count of the two action kinds on singleton lists. -/
theorem cancelCount_single (x : String) : cancelCount [GAction.cancel x] = 1 := rfl

theorem placeCount_single (x : String) : placeCount [GAction.cancel x] = 0 := rfl

/-- Each unit of follow fuel contributes at most one cancel and one
place. -/
theorem followBuyGo_bound (N mid desired : ℚ) (active : List (OrderSide × ℚ))
    (sells : SideMap) (idg : Nat → String) (ok : Nat → Bool) :
    ∀ (fuel : Nat) (nearest : ℚ) (buys : SideMap) (acts : List GAction),
      cancelCount
        (followBuyGo N mid desired active sells idg ok fuel nearest buys acts).2
        ≤ cancelCount acts + fuel ∧
      placeCount
        (followBuyGo N mid desired active sells idg ok fuel nearest buys acts).2
        ≤ placeCount acts + fuel := by
  intro fuel
  induction fuel with
  | zero =>
    intro nearest buys acts
    exact ⟨Nat.le_add_right _ _, Nat.le_add_right _ _⟩
  | succ f ih =>
    intro nearest buys acts
    simp only [followBuyGo]
    by_cases h1 : ¬ (nearest < desired - eps)
    · rw [if_pos h1]
      exact ⟨Nat.le_add_right _ _, Nat.le_add_right _ _⟩
    rw [if_neg h1]
    by_cases h2 : buys = []
    · rw [if_pos h2]
      exact ⟨Nat.le_add_right _ _, Nat.le_add_right _ _⟩
    rw [if_neg h2]
    by_cases h3 : mid - eps ≤ nearest + N
    · rw [if_pos h3]
      rw [cancelCount_append, placeCount_append, cancelCount_single,
        placeCount_single]
      constructor <;> omega
    rw [if_neg h3]
    by_cases h4 : nearest + N ∈ keys (eraseKey buys ((listMin (keys buys)).getD 0))
    · rw [if_pos h4]
      rcases ih (nearest + N) (eraseKey buys ((listMin (keys buys)).getD 0))
        (acts ++ [GAction.cancel ((lookupKey buys ((listMin (keys buys)).getD 0)).getD "")])
        with ⟨hc, hp⟩
      rw [cancelCount_append, cancelCount_single] at hc
      rw [placeCount_append, placeCount_single] at hp
      constructor
      · exact hc.trans (by omega)
      · exact hp.trans (by omega)
    rw [if_neg h4]
    by_cases h5 : has_min_gap N (eraseKey buys ((listMin (keys buys)).getD 0))
        (nearest + N) = false
    · rw [if_pos h5]
      rw [cancelCount_append, placeCount_append, cancelCount_single,
        placeCount_single]
      constructor <;> omega
    rw [if_neg h5]
    rcases ih (nearest + N)
      (place_order N (eraseKey buys ((listMin (keys buys)).getD 0)) sells active
        OrderSide.BUY (nearest + N) (idg f) (ok f)).buys
      ((acts ++ [GAction.cancel ((lookupKey buys ((listMin (keys buys)).getD 0)).getD "")])
        ++ (place_order N (eraseKey buys ((listMin (keys buys)).getD 0)) sells active
          OrderSide.BUY (nearest + N) (idg f) (ok f)).calls)
      with ⟨hc, hp⟩
    rw [cancelCount_append, cancelCount_append, cancelCount_single,
      place_order_cancelCount] at hc
    rw [placeCount_append, placeCount_append, placeCount_single] at hp
    have hpo := place_order_placeCount N
      (eraseKey buys ((listMin (keys buys)).getD 0)) sells active
      OrderSide.BUY (nearest + N) (idg f) (ok f)
    constructor
    · exact hc.trans (by omega)
    · exact hp.trans (by omega)

/-- When the nearest buy is within the slack band, the follow loop does
nothing. -/
theorem followBuyGo_noop (N mid desired : ℚ) (active : List (OrderSide × ℚ))
    (sells : SideMap) (idg : Nat → String) (ok : Nat → Bool)
    (fuel : Nat) (nearest : ℚ) (buys : SideMap)
    (h : ¬ (nearest < desired - eps)) :
    followBuyGo N mid desired active sells idg ok fuel nearest buys [] = (buys, []) := by
  cases fuel with
  | zero => rfl
  | succ f =>
    simp only [followBuyGo]
    rw [if_pos h]

/-- Claim C4, drift follow on the buy side: the pass runs only when the
nearest buy lags `P - (X + slack·N)` by more than the `1e-9` tolerance
(otherwise it performs no action), each shift cancels the single farthest
(minimum) buy and re-places it one step inside the previous nearest
price, and the numbers of cancel and place calls per tick are both
bounded by the configured `max_shift_per_loop` — never unbounded.  On the
spec's example (market `2000`, nearest buy `1700`, `X = 100`, `N = 100`,
`slack = 1`, one shift allowed) the buy at `1700` is cancelled and
re-placed at `1800`. -/
theorem C4_drift_follow (N X mid slack : ℚ) (maxShift : Nat)
    (active : List (OrderSide × ℚ)) (idg : Nat → String) (ok : Nat → Bool)
    (buys sells : SideMap) :
    (cancelCount (followBuy N X mid slack maxShift active idg ok buys sells).2
        ≤ maxShift ∧
     placeCount (followBuy N X mid slack maxShift active idg ok buys sells).2
        ≤ maxShift) ∧
    (∀ nb : ℚ, listMax (keys buys) = some nb →
      ¬ (nb < mid - (X + slack * N) - eps) →
      followBuy N X mid slack maxShift active idg ok buys sells = (buys, [])) ∧
    followBuy 100 100 2000 1 1 [] (fun _ => "g") (fun _ => true)
      [(1700, "f")] []
      = ([(1800, "g")], [GAction.cancel "f", GAction.place OrderSide.BUY 1800]) := by
  refine ⟨?_, ?_, ?_⟩
  · unfold followBuy
    cases hmax : listMax (keys buys) with
    | none => simp [cancelCount, placeCount]
    | some nb =>
      have hb := followBuyGo_bound N mid (mid - (X + slack * N)) active sells
        idg ok maxShift nb buys []
      simpa [cancelCount, placeCount] using hb
  · intro nb hmax hcond
    unfold followBuy
    rw [hmax]
    exact followBuyGo_noop _ _ _ _ _ _ _ _ _ _ hcond
  · norm_num [followBuy, followBuyGo, place_order, has_min_gap, keys, lookupKey,
      eraseKey, insertKey, listMin, listMax, eps]

/-- Witness for C4: with the market at `2000` and the nearest buy already
at the slack boundary `1700 = 2000 - (100 + 2·100)`, the follow pass
leaves the ladder untouched. -/
theorem C4_drift_follow_witness :
    followBuy 100 100 2000 2 1 [] (fun _ => "g") (fun _ => true)
      [(1700, "f")] [] = ([(1700, "f")], []) :=
  (C4_drift_follow 100 100 2000 2 1 [] (fun _ => "g") (fun _ => true)
    [(1700, "f")] []).2.1 1700 rfl (by norm_num [eps])

/-- One engine mutation preserves both ladder invariants. -/
theorem GStep_preserves {N : ℚ} (hN : 0 < N) {L L2 : Ladder}
    (h : GStep N L L2) (hinv : LadderInv N L) : LadderInv N L2 := by
  obtain ⟨hb, hs, hcross⟩ := hinv
  cases h with
  | seedBuys S mid X levels hempty htargets hc =>
    refine ⟨?_, hs, fun p hp => hc p hp⟩
    intro p hp q hq hne
    obtain ⟨i, _, hpi⟩ := htargets p hp
    obtain ⟨j, _, hqj⟩ := htargets q hq
    have hij : i ≠ j := by
      intro hEq
      exact hne (by rw [hpi, hqj, hEq])
    have hz : ((j : ℤ) - (i : ℤ)) ≠ 0 := by
      intro hc0
      have hji : (j : ℤ) = (i : ℤ) := sub_eq_zero.1 hc0
      have hji2 : j = i := by exact_mod_cast hji
      exact hij hji2.symm
    have h1z : (1 : ℤ) ≤ |(j : ℤ) - (i : ℤ)| := Int.one_le_abs hz
    have h1q : (1 : ℚ) ≤ |(j : ℚ) - (i : ℚ)| := by exact_mod_cast h1z
    have hpq : p - q = ((j : ℚ) - (i : ℚ)) * N := by
      rw [hpi, hqj]
      ring
    calc N = 1 * N := (one_mul N).symm
      _ ≤ |(j : ℚ) - (i : ℚ)| * N := mul_le_mul_of_nonneg_right h1q hN.le
      _ = |((j : ℚ) - (i : ℚ)) * N| := by rw [abs_mul, abs_of_pos hN]
      _ = |p - q| := by rw [hpq]
  | seedSells S mid X levels hempty htargets hc =>
    refine ⟨hb, ?_, fun p hp hps => hc p hps hp⟩
    intro p hp q hq hne
    obtain ⟨i, _, hpi⟩ := htargets p hp
    obtain ⟨j, _, hqj⟩ := htargets q hq
    have hij : i ≠ j := by
      intro hEq
      exact hne (by rw [hpi, hqj, hEq])
    have hz : ((j : ℤ) - (i : ℤ)) ≠ 0 := by
      intro hc0
      have hji : (j : ℤ) = (i : ℤ) := sub_eq_zero.1 hc0
      have hji2 : j = i := by exact_mod_cast hji
      exact hij hji2.symm
    have h1z : (1 : ℤ) ≤ |(j : ℤ) - (i : ℤ)| := Int.one_le_abs hz
    have h1q : (1 : ℚ) ≤ |(j : ℚ) - (i : ℚ)| := by exact_mod_cast h1z
    have hpq : p - q = ((i : ℚ) - (j : ℚ)) * N := by
      rw [hpi, hqj]
      ring
    calc N = 1 * N := (one_mul N).symm
      _ ≤ |(j : ℚ) - (i : ℚ)| * N := mul_le_mul_of_nonneg_right h1q hN.le
      _ = |((i : ℚ) - (j : ℚ)) * N| := by
          rw [abs_mul, abs_of_pos hN, abs_sub_comm]
      _ = |p - q| := by rw [hpq]
  | placeBuy p hgap hc =>
    refine ⟨?_, hs, ?_⟩
    · intro a ha b hbm hne
      rcases Finset.mem_insert.1 ha with ha1 | ha2 <;>
        rcases Finset.mem_insert.1 hbm with hb1 | hb2
      · exact absurd (ha1.trans hb1.symm) hne
      · rw [ha1]
        exact hgap b hb2
      · rw [hb1, abs_sub_comm]
        exact hgap a ha2
      · exact hb a ha2 b hb2 hne
    · intro x hx
      rcases Finset.mem_insert.1 hx with h1 | h2
      · rw [h1]
        exact hc
      · exact hcross x h2
  | placeSell p hgap hc =>
    refine ⟨hb, ?_, ?_⟩
    · intro a ha b hbm hne
      rcases Finset.mem_insert.1 ha with ha1 | ha2 <;>
        rcases Finset.mem_insert.1 hbm with hb1 | hb2
      · exact absurd (ha1.trans hb1.symm) hne
      · rw [ha1]
        exact hgap b hb2
      · rw [hb1, abs_sub_comm]
        exact hgap a ha2
      · exact hs a ha2 b hb2 hne
    · intro x hx hxs
      rcases Finset.mem_insert.1 hxs with h1 | h2
      · exact hc (h1 ▸ hx)
      · exact hcross x hx h2
  | removeBuy p =>
    exact ⟨fun a ha b hbm hne =>
        hb a (Finset.mem_of_mem_erase ha) b (Finset.mem_of_mem_erase hbm) hne,
      hs,
      fun x hx => hcross x (Finset.mem_of_mem_erase hx)⟩
  | removeSell p =>
    exact ⟨hb, fun a ha b hbm hne =>
        hs a (Finset.mem_of_mem_erase ha) b (Finset.mem_of_mem_erase hbm) hne,
      fun x hx hxs => hcross x hx (Finset.mem_of_mem_erase hxs)⟩

/-- Claim C5: every ladder state reachable from the empty initial state
keeps both invariants — within one side no two resting prices closer than
`step`, and no price on both sides — and `_place_order` refuses a
placement at a price held by the opposite side as a no-op, making no
venue call at all. -/
theorem C5_ladder_invariants (N : ℚ) (hN : 0 < N) (L : Ladder)
    (h : Reach N L) :
    LadderInv N L ∧
    (∀ (buys sells : SideMap) (active : List (OrderSide × ℚ)) (px : ℚ)
        (oid : String) (ok : Bool),
      (px ∈ keys sells →
        place_order N buys sells active OrderSide.BUY px oid ok
          = ⟨buys, sells, []⟩) ∧
      (px ∈ keys buys →
        place_order N buys sells active OrderSide.SELL px oid ok
          = ⟨buys, sells, []⟩)) := by
  constructor
  · have h' : Relation.ReflTransGen (GStep N) emptyLadder L := h
    clear h
    induction h' with
    | refl =>
      refine ⟨?_, ?_, ?_⟩ <;>
        intro p hp <;>
        exact absurd hp (Finset.not_mem_empty p)
    | tail hab hbc ih => exact GStep_preserves hN hbc ih
  · intro buys sells active px oid ok
    constructor
    · intro hmem
      unfold place_order
      split
      · rfl
      · rw [if_pos ⟨rfl, hmem⟩]
    · intro hmem
      unfold place_order
      split
      · rfl
      · have hng : ¬ (OrderSide.SELL = OrderSide.BUY ∧ px ∈ keys sells) := by
          intro hcc
          cases hcc.1
        rw [if_neg hng, if_pos ⟨rfl, hmem⟩]

/-- Witness for C5: the initial empty ladder satisfies both invariants at
`step = 1`, and a BUY placement at a price held by the sell side is
refused without a venue call. -/
theorem C5_ladder_invariants_witness :
    LadderInv 1 emptyLadder ∧
    place_order 1 [] [(100, "s")] [] OrderSide.BUY 100 "x" true
      = ⟨[], [(100, "s")], []⟩ :=
  ⟨(C5_ladder_invariants 1 (by norm_num) emptyLadder
      Relation.ReflTransGen.refl).1,
   ((C5_ladder_invariants 1 (by norm_num) emptyLadder
      Relation.ReflTransGen.refl).2 [] [(100, "s")] [] 100 "x" true).1
      (by simp [keys])⟩

/-- Witness for the amended C10 at 10 bps fees, entry 100, target 5 bps. -/
theorem C10_tp_breakeven_witness :
    ((calc_tp_with_fees 10 10 true 100 5).2 = OrderSide.SELL ∧
      0 ≤ ((calc_tp_with_fees 10 10 true 100 5).1 - 100)
        - (100 * ((10 : ℚ) / 10000)
           + (calc_tp_with_fees 10 10 true 100 5).1 * ((10 : ℚ) / 10000))) ∧
    ((calc_tp_with_fees 10 10 false 100 5).2 = OrderSide.BUY ∧
      0 ≤ (100 - (calc_tp_with_fees 10 10 false 100 5).1)
        - (100 * ((10 : ℚ) / 10000)
           + (calc_tp_with_fees 10 10 false 100 5).1 * ((10 : ℚ) / 10000))) :=
  C10_tp_breakeven 10 10 100 5 (by norm_num) (by norm_num) (by norm_num)
    (by norm_num) (by norm_num) (by norm_num)

/-- The attempt loop never makes more venue calls than it has attempts. -/
theorem mm_placeGo_calls_le (delay : ℚ) (out : Nat → PlaceOutcome) :
    ∀ (remaining attempt : Nat),
      (mm_placeGo delay out attempt remaining).2.1 ≤ remaining := by
  intro remaining
  induction remaining with
  | zero => intro attempt; exact Nat.le_refl 0
  | succ r ih =>
    intro attempt
    rcases hout : out attempt with oid | b
    · simp [mm_placeGo, hout]
    · simp only [mm_placeGo, hout]
      by_cases hc : b = true ∧ 0 < r
      · rw [if_pos hc]
        have hr := ih (attempt + 1)
        simp only []
        omega
      · rw [if_neg hc]
        simp

/-- Every sleep the attempt loop performs lasts exactly `delay`. -/
theorem mm_placeGo_sleeps (delay : ℚ) (out : Nat → PlaceOutcome) :
    ∀ (remaining attempt : Nat) (d : ℚ),
      d ∈ (mm_placeGo delay out attempt remaining).2.2 → d = delay := by
  intro remaining
  induction remaining with
  | zero =>
    intro attempt d h
    simp [mm_placeGo] at h
  | succ r ih =>
    intro attempt d h
    rcases hout : out attempt with oid | b
    · simp [mm_placeGo, hout] at h
    · simp only [mm_placeGo, hout] at h
      by_cases hc : b = true ∧ 0 < r
      · rw [if_pos hc] at h
        simp only [List.mem_cons] at h
        rcases h with h1 | h2
        · exact h1
        · exact ih (attempt + 1) d h2
      · rw [if_neg hc] at h
        simp at h

/-- Claim C8, counterexample: with `op_spacing_sec = 1/2`, the backoff
sleeps in the rate-limit-twice-then-success scenario are `1` second each
(the source uses `max(1.0, op_spacing_sec)`), not the operation-spacing
delay `1/2` the claim asserts. -/
theorem C8_counterexample :
    (mm_place (1/2) rlTwiceThenOk).2.2 = [1, 1] ∧
    (mm_place (1/2) rlTwiceThenOk).2.2 ≠ [1/2, 1/2] := by
  have h : (mm_place (1/2) rlTwiceThenOk).2.2 = [1, 1] := by
    norm_num [mm_place, mm_placeGo, rlTwiceThenOk]
  refine ⟨h, ?_⟩
  rw [h]
  intro hcc
  rw [List.cons.injEq] at hcc
  norm_num at hcc

/-- Claim C8, amended: the `_place` executor makes at most `retries + 1 = 3` venue
calls; every backoff sleep equals `max(1, op_spacing_sec)` — fixed, not
exponential, and equal to the spacing delay whenever the spacing is at
least one second; in the rate-limit-twice-then-success scenario the
result is exactly one successful placement after three calls and two
sleeps, with no duplicate; and a non-transient first failure returns the
typed `None` outcome after a single call instead of raising. -/
theorem C8_place_retry (spacing : ℚ) (out : Nat → PlaceOutcome) :
    (mm_place spacing out).2.1 ≤ 3 ∧
    (∀ d ∈ (mm_place spacing out).2.2, d = max 1 spacing) ∧
    (out 0 = PlaceOutcome.err true → out 1 = PlaceOutcome.err true →
      ∀ oid : String, out 2 = PlaceOutcome.ok oid →
        mm_place spacing out = (some oid, 3, [max 1 spacing, max 1 spacing])) ∧
    (out 0 = PlaceOutcome.err false →
      mm_place spacing out = (none, 1, [])) := by
  refine ⟨mm_placeGo_calls_le _ _ 3 0,
    fun d hd => mm_placeGo_sleeps _ _ 3 0 d hd, ?_, ?_⟩
  · intro h0 h1 oid h2
    simp [mm_place, mm_placeGo, h0, h1, h2]
  · intro h0
    simp [mm_place, mm_placeGo, h0]

/-- Witness for the amended C8: spacing `2` (at least one second), two
rate-limit failures then success yield the single placement `oid1`,
three calls, two equal sleeps. -/
theorem C8_place_retry_witness :
    mm_place 2 rlTwiceThenOk = (some "oid1", 3, [max 1 2, max 1 2]) :=
  (C8_place_retry 2 rlTwiceThenOk).2.2.1 rfl rfl "oid1" rfl

set_option maxRecDepth 40000 in
/-- Claim C7, counterexample: a price-band rejection whose structured
payload carries the bound `tickSize = "0.5"` (and whose rendered detail
contains no rate-limit pattern) is terminal immediately: the executor
makes exactly one venue call — not a second attempt with a clamped
price — and returns the typed failure; the parsed bound surfaces only as
an operator hint inside the error detail. -/
theorem C7_counterexample :
    placePipeline 1 bandPayload bandVenue = (none, 1, []) ∧
    (extract_detail bandPayload (some bandBody) "" (some "400")).hint_price_tick
      = some (priceHint "0.5") ∧
    (1 : Nat) ≠ 2 := by
  refine ⟨?_, rfl, by norm_num⟩
  have hcl : isRateLimitMsg (renderDetailMsg
      (extract_detail bandPayload (some bandBody) "" (some "400"))) = false := by
    decide
  simp [placePipeline, mm_place, mm_placeGo, bandVenue, edgex_place_order, hcl]

/-- Claim C7, amended: the executor never retries a rejected order with a
clamped price — each attempt re-submits the unchanged quantized payload,
and the bound parsed out of the structured rejection is recorded only as
an operator hint inside the raised error detail.  When the rendered
detail (payload echo, code, msg, errorParam, request/response times,
hints, raw error, status) contains none of the rate-limit patterns, the
rejection is terminal after exactly one venue call with the typed `None`
outcome; when some echoed field does contain one — for instance an order
price of `2429.5` — `_place`'s substring scan misclassifies the
rejection as transient and re-submits the same payload twice more before
returning the typed failure. -/
theorem C7_price_rejection_no_clamp (spacing : ℚ) (payload : OrderPayload)
    (venue : Nat → VenueResp) (body : Option RejectBody) (rawErr : String)
    (status : Option String)
    (hv : ∀ n, venue n = VenueResp.reject body rawErr status) :
    ((extract_detail payload body rawErr status).hint_price_tick
      = (truthy (pyOrStr (body.bind RejectBody.tickSize)
          (body.bind RejectBody.priceStep))).map priceHint) ∧
    (isRateLimitMsg (renderDetailMsg (extract_detail payload body rawErr status))
        = false →
      placePipeline spacing payload venue = (none, 1, [])) ∧
    (isRateLimitMsg (renderDetailMsg (extract_detail payload body rawErr status))
        = true →
      placePipeline spacing payload venue
        = (none, 3, [max 1 spacing, max 1 spacing])) := by
  refine ⟨?_, ?_, ?_⟩
  · cases body with
    | none => rfl
    | some b => rfl
  · intro hmsg
    simp [placePipeline, mm_place, mm_placeGo, hv, edgex_place_order, hmsg]
  · intro hmsg
    simp [placePipeline, mm_place, mm_placeGo, hv, edgex_place_order, hmsg]

set_option maxRecDepth 40000 in
/-- Witness for the amended C7: with the echoed order price `2429.5`, a
pure price-band rejection is re-submitted twice at the unchanged price
(three venue calls, two backoff sleeps) and still ends in the typed
failure. -/
theorem C7_price_rejection_no_clamp_witness :
    placePipeline 2 band429Payload bandVenue = (none, 3, [max 1 2, max 1 2]) :=
  (C7_price_rejection_no_clamp 2 band429Payload bandVenue (some bandBody) ""
    (some "400") (fun _ => rfl)).2.2 (by decide)

end EdgeXBot
